import Mathlib

/-!
Verification development for the blob indexer's slot-processing core.

The Rust sources embedded here are:
* `src/slots_processor/mod.rs` — the reorg-aware pipeline (`SlotsProcessor`),
  modelled by `processSlots` / `processSlot` / `detectAndHandleReorg`;
* `src/slot_processor.rs` — the legacy pipeline (`SlotProcessor`),
  modelled by `oldProcessSlots` / `oldProcessSlot`;
* `src/clients/beacon/types.rs` — the `BlockId` wire format.

Hashes, addresses, commitments and opaque blob bytes are abstracted as `Nat`.
External clients (beacon node, execution provider, downstream indexer) are
modelled as a pure oracle `Env`; every boundary-crossing call the code makes is
recorded, in order, in a `List Call` trace.  Code of the repository that is not
in the provided sources (helper modules, entity conversions) is modelled from
the specification and marked as such in its doc comment.
-/

abbrev H256 := Nat
abbrev Address := Nat
abbrev Commitment := Nat
abbrev VH := Nat
abbrev BlobBytes := Nat

/-! ## Decimal rendering and parsing (for `BlockId` and sidecar indices) -/

/-- Character for a single decimal digit. -/
def digitChar (d : Nat) : Char := Char.ofNat (48 + d)

/-- Test for an ASCII decimal digit. -/
def isDigitChar (c : Char) : Bool := 48 ≤ c.toNat && c.toNat ≤ 57

/-- Numeric value of an ASCII decimal digit. -/
def digitVal (c : Char) : Nat := c.toNat - 48

/-- Little-endian digit characters of `n`; `fuel` bounds the recursion and any
`fuel ≥ n` is enough. -/
def natToDigitsRevAux : Nat → Nat → List Char
  | 0, _ => []
  | fuel + 1, n =>
    if n = 0 then [] else digitChar (n % 10) :: natToDigitsRevAux fuel (n / 10)

/-- Little-endian digit characters of a positive `n` (empty for `0`). -/
def natToDigitsRev (n : Nat) : List Char := natToDigitsRevAux n n

/-- Decimal rendering of `n`, as produced by Rust's `Display` for integers. -/
def natToString (n : Nat) : List Char :=
  if n = 0 then [Char.ofNat 48] else (natToDigitsRev n).reverse

/-- Accumulator pass of decimal parsing: consumes digit characters, fails on
anything else. -/
def parseDigitsAux (acc : Nat) : List Char → Option Nat
  | [] => some acc
  | c :: cs =>
    if isDigitChar c then parseDigitsAux (acc * 10 + digitVal c) cs else none

/-- Drop one leading ASCII plus sign, as Rust's integer `FromStr` accepts. -/
def stripPlus (s : List Char) : List Char :=
  match s with
  | [] => []
  | c :: rest => if c = Char.ofNat 43 then rest else c :: rest

/-- Rust's `str::parse::<u32>`: optional leading plus sign, one or more decimal
digits, value below `2 ^ 32`. -/
def parseU32 (s : List Char) : Option Nat :=
  let s2 := stripPlus s
  if s2.isEmpty then none
  else
    match parseDigitsAux 0 s2 with
    | some n => if n < 2 ^ 32 then some n else none
    | none => none

/-! ## Beacon client data model (`src/clients/beacon/types.rs`) -/

/-- `BlockId` from `src/clients/beacon/types.rs`. -/
inductive BlockId where
  | head
  | finalized
  | slot (n : Nat)
deriving DecidableEq, Repr

/-- The characters of the string `"head"`. -/
def headChars : List Char := [Char.ofNat 104, Char.ofNat 101, Char.ofNat 97, Char.ofNat 100]

/-- The characters of the string `"finalized"`. -/
def finalizedChars : List Char :=
  [Char.ofNat 102, Char.ofNat 105, Char.ofNat 110, Char.ofNat 97, Char.ofNat 108,
   Char.ofNat 105, Char.ofNat 122, Char.ofNat 101, Char.ofNat 100]

/-- `impl fmt::Display for BlockId`: `head`, `finalized`, or the decimal slot. -/
def BlockId.display : BlockId → List Char
  | .head => headChars
  | .finalized => finalizedChars
  | .slot n => natToString n

/-- `impl FromStr for BlockId`: the two keywords, else `parse::<u32>`, else an
error. -/
def BlockId.fromStr (s : List Char) : Except Unit BlockId :=
  if s = headChars then .ok .head
  else if s = finalizedChars then .ok .finalized
  else
    match parseU32 s with
    | some n => .ok (.slot n)
    | none => .error ()

/-- Well-formedness of a `BlockId` value as Rust's `u32`-slotted type: the slot
fits in 32 bits. -/
def BlockId.wf : BlockId → Prop
  | .slot n => n < 2 ^ 32
  | _ => True

instance : DecidablePred BlockId.wf := by
  intro b
  cases b <;> simp [BlockId.wf] <;> infer_instance

/-- `ExecutionPayload` from the beacon block body. -/
structure ExecutionPayload where
  block_hash : H256
deriving DecidableEq, Repr

/-- `BlockBody` of a beacon block. -/
structure BlockBody where
  execution_payload : Option ExecutionPayload
  blob_kzg_commitments : Option (List Commitment)
deriving DecidableEq, Repr

/-- `BlockMessage` of a beacon block. -/
structure BlockMessage where
  slot : Nat
  body : BlockBody
  parent_root : H256
deriving DecidableEq, Repr

/-- A beacon `Block` (the consensus-layer view of a slot). -/
structure BeaconBlock where
  message : BlockMessage
deriving DecidableEq, Repr

/-- A sidecar `Blob` item: index (a decimal string on the wire), KZG
commitment, opaque bytes. -/
structure Blob where
  index : List Char
  kzg_commitment : Commitment
  blob : BlobBytes
deriving DecidableEq, Repr

/-- `BlockHeaderMessage` of a beacon block header. -/
structure BlockHeaderMessage where
  parent_root : H256
  slot : Nat
deriving DecidableEq, Repr

/-- `InnerBlockHeader` wrapper. -/
structure InnerBlockHeader where
  message : BlockHeaderMessage
deriving DecidableEq, Repr

/-- A beacon `BlockHeader`: block root plus the inner header. -/
structure BlockHeader where
  root : H256
  header : InnerBlockHeader
deriving DecidableEq, Repr

/-- `BlockData` (`src/slots_processor/mod.rs`): the reorg detector's memory of
the last observed block. -/
structure BlockData where
  root : H256
  slot : Nat
deriving DecidableEq, Repr

/-- `From<BlockHeader> for BlockData`. -/
def BlockData.ofHeader (h : BlockHeader) : BlockData :=
  ⟨h.root, h.header.message.slot⟩

/-! ## Execution-layer data model (ethers `Block<Transaction>`) -/

/-- An execution-layer transaction, with its declared blob versioned hashes. -/
structure Transaction where
  hash : H256
  from_addr : Address
  to_addr : Option Address
  blob_versioned_hashes : List VH
deriving DecidableEq, Repr

/-- An execution-layer block with full transactions.  `hash` and `number` are
optional, as in ethers. -/
structure ExecutionBlock where
  hash : Option H256
  number : Option Nat
  timestamp : Nat
  transactions : List Transaction
deriving DecidableEq, Repr

/-! ## Emitted entities (downstream indexer payload) -/

/-- Emitted block entity: execution hash, slot, number, timestamp. -/
structure BlockEntity where
  hash : H256
  slot : Nat
  number : Nat
  timestamp : Nat
deriving DecidableEq, Repr

/-- Emitted transaction entity. -/
structure TransactionEntity where
  hash : H256
  block_number : Nat
  from_addr : Address
  to_addr : Address
deriving DecidableEq, Repr

/-- Emitted blob entity. -/
structure BlobEntity where
  versioned_hash : VH
  commitment : Commitment
  data : BlobBytes
  index : Nat
  tx_hash : H256
deriving DecidableEq, Repr

/-! ## Boundary-crossing calls and the external-world oracle -/

/-- One boundary-crossing call made by the core, recorded in order. -/
inductive Call where
  | getBlockHeader (slot : Nat)
  | getBlock (slot : Nat)
  | getBlockWithTxs (hash : H256)
  | getBlobs (slot : Nat)
  | handleReorgedSlot (slot : Nat)
  | index (block : BlockEntity) (txs : List TransactionEntity) (blobs : List BlobEntity)
  | updateSlot (slot : Nat)
deriving DecidableEq, Repr

/-- Pure oracle for the three upstream clients and the downstream indexer.
`none` models a 404 from the beacon node or a missing execution block; the
`…Ok` fields decide whether a downstream call succeeds. -/
structure Env where
  getBlock : Nat → Option BeaconBlock
  getBlobs : Nat → Option (List Blob)
  getBlockHeader : Nat → Option BlockHeader
  getBlockWithTxs : H256 → Option ExecutionBlock
  calcVersionedHash : Commitment → VH
  indexOk : BlockEntity → Bool
  handleReorgedOk : Nat → Bool
  updateSlotOk : Nat → Bool

/-! ## Outcomes and errors -/

/-- Skip reasons logged by `SlotsProcessor::process_slot`. -/
inductive SkipReason where
  | noBeaconBlock
  | noExecutionPayload
  | noBlobCommitments
  | emptySidecar
  | noSidecar
deriving DecidableEq, Repr

/-- Observable per-slot outcome of the reorg-aware pipeline on success. -/
inductive SlotOutcome where
  | indexed
  | skipped (reason : SkipReason)
deriving DecidableEq, Repr

/-- Errors of the reorg-aware pipeline (`SlotProcessingError` and the anyhow
errors it wraps). -/
inductive ProcErr where
  | reorgHandlingFailed (slot : Nat)
  | executionBlockNotFound (hash : H256)
  | beaconExecutionMismatch
  | missingBlockHash
  | missingBlockNumber
  | missingTo (txHash : H256)
  | duplicatedVersionedHash (v : VH)
  | sidecarMissing (i : Nat) (v : VH) (txHash : H256)
  | indexFailed
deriving DecidableEq, Repr

/-- Modelled from the spec: the error taxonomy of section 7 — consistency
violations, not-found execution blocks and malformed/missing fields are
permanent; failed downstream network calls are transient.  (The Rust
permanence classification lives outside the provided sources.) -/
def ProcErr.permanent : ProcErr → Bool
  | .reorgHandlingFailed _ => false
  | .executionBlockNotFound _ => true
  | .beaconExecutionMismatch => true
  | .missingBlockHash => true
  | .missingBlockNumber => true
  | .missingTo _ => true
  | .duplicatedVersionedHash _ => true
  | .sidecarMissing _ _ _ => true
  | .indexFailed => false

/-- `SlotsProcessorError::FailedSlotsProcessing`: the structured error the
range driver surfaces on abort. -/
inductive SlotsErr where
  | failedSlotsProcessing (initial_slot final_slot failed_slot : Nat) (error : ProcErr)
deriving DecidableEq, Repr

/-! ## Correlator helpers -/

/-- First-match association-list lookup (the model of `HashMap::get`). -/
def lookupA (k : Nat) : List (Nat × α) → Option α
  | [] => none
  | (k2, v) :: rest => if k = k2 then some v else lookupA k rest

/-- Short-circuiting effectful map over a list (the model of collecting a
`Result<Vec<_>>`). -/
def exceptMap (f : α → Except ε β) : List α → Except ε (List β)
  | [] => .ok []
  | a :: as =>
    match f a with
    | .error e => .error e
    | .ok b =>
      match exceptMap f as with
      | .error e => .error e
      | .ok bs => .ok (b :: bs)

/-- Modelled from the spec: `create_tx_hash_versioned_hashes_mapping`
(`src/slots_processor/helpers.rs`, not in the provided sources) and the map
inside `BlockData::try_from` of the legacy variant — walks the block's
transactions and, for each transaction declaring a non-empty list of blob
versioned hashes, records `(tx hash, hashes)` in order. -/
def txHashToVersionedHashes (b : ExecutionBlock) : List (H256 × List VH) :=
  b.transactions.filterMap fun tx =>
    if tx.blob_versioned_hashes.isEmpty then none
    else some (tx.hash, tx.blob_versioned_hashes)

/-- Modelled from the spec: `create_versioned_hash_blob_mapping`
(`src/slots_processor/helpers.rs`, not in the provided sources) — for each
sidecar item computes the versioned hash of its commitment and inserts it;
fails if two items yield the same versioned hash. -/
def versionedHashToBlob (calcVH : Commitment → VH) : List Blob → Except ProcErr (List (VH × Blob))
  | [] => .ok []
  | bl :: rest =>
    match versionedHashToBlob calcVH rest with
    | .error e => .error e
    | .ok m =>
      let k := calcVH bl.kzg_commitment
      if (lookupA k m).isSome then .error (.duplicatedVersionedHash k)
      else .ok ((k, bl) :: m)

/-- Modelled from the spec: `Block::try_from((&execution_block, slot))` of the
blobscan client types (not in the provided sources) — requires the execution
block's own hash and number to be present. -/
def blockEntityTryFrom (eb : ExecutionBlock) (slot : Nat) : Except ProcErr BlockEntity :=
  match eb.hash with
  | none => .error .missingBlockHash
  | some h =>
    match eb.number with
    | none => .error .missingBlockNumber
    | some n => .ok ⟨h, slot, n, eb.timestamp⟩

/-- Modelled from the spec: `Transaction::try_from((tx, &execution_block))` of
the blobscan client types (not in the provided sources) — requires the block
number and the transaction's `to` field to be present. -/
def transactionEntityOf (eb : ExecutionBlock) (tx : Transaction) : Except ProcErr TransactionEntity :=
  match eb.number with
  | none => .error .missingBlockNumber
  | some n =>
    match tx.to_addr with
    | none => .error (.missingTo tx.hash)
    | some t => .ok ⟨tx.hash, n, tx.from_addr, t⟩

/-- The reorg-aware pipeline's transaction entities: execution-block
transactions filtered to those present in the tx-to-versioned-hashes map, in
block order. -/
def transactionsEntities (eb : ExecutionBlock) (txMap : List (H256 × List VH)) :
    Except ProcErr (List TransactionEntity) :=
  exceptMap (transactionEntityOf eb)
    (eb.transactions.filter fun tx => (lookupA tx.hash txMap).isSome)

/-- Blob entities for one transaction: `for (i, versioned_hash) in
versioned_hashes.iter().enumerate()`, looking each hash up in the sidecar map
(`i` starts at the given index, `0` at the call site). -/
def blobEntitiesForTx (vhMap : List (VH × Blob)) (txHash : H256) :
    Nat → List VH → Except ProcErr (List BlobEntity)
  | _, [] => .ok []
  | i, v :: vs =>
    match lookupA v vhMap with
    | none => .error (.sidecarMissing i v txHash)
    | some bl =>
      match blobEntitiesForTx vhMap txHash (i + 1) vs with
      | .error e => .error e
      | .ok rest => .ok (⟨v, bl.kzg_commitment, bl.blob, i, txHash⟩ :: rest)

/-- The reorg-aware pipeline's blob entities: for each `(tx_hash,
versioned_hashes)` pair of the map, the per-transaction entities in order
(`src/slots_processor/mod.rs`, lines 197–205). -/
def buildBlobEntities (vhMap : List (VH × Blob)) :
    List (H256 × List VH) → Except ProcErr (List BlobEntity)
  | [] => .ok []
  | (txHash, vhs) :: rest =>
    match blobEntitiesForTx vhMap txHash 0 vhs with
    | .error e => .error e
    | .ok bs =>
      match buildBlobEntities vhMap rest with
      | .error e => .error e
      | .ok bs2 => .ok (bs ++ bs2)

/-! ## Reorg-aware pipeline (`src/slots_processor/mod.rs`) -/

/-- `SlotsProcessor::_detect_and_handle_reorg`: fetch the header at `slot`; if
absent, return without touching state; otherwise, if a previous block is
remembered and its root differs from the header's parent root, notify the
downstream indexer (propagating its failure); finally remember the fetched
header. -/
def detectAndHandleReorg (env : Env) (lastBlock : Option BlockData) (slot : Nat) :
    Except ProcErr Unit × Option BlockData × List Call :=
  match env.getBlockHeader slot with
  | none => (.ok (), lastBlock, [Call.getBlockHeader slot])
  | some hdr =>
    match lastBlock with
    | some block =>
      if hdr.header.message.parent_root ≠ block.root then
        if env.handleReorgedOk slot then
          (.ok (), some (BlockData.ofHeader hdr),
            [Call.getBlockHeader slot, Call.handleReorgedSlot slot])
        else
          (.error (.reorgHandlingFailed slot), lastBlock,
            [Call.getBlockHeader slot, Call.handleReorgedSlot slot])
      else (.ok (), some (BlockData.ofHeader hdr), [Call.getBlockHeader slot])
    | none => (.ok (), some (BlockData.ofHeader hdr), [Call.getBlockHeader slot])

/-- `SlotsProcessor::process_slot` after the reorg check: fetch the beacon
block, check the execution payload and the KZG commitments, fetch the
execution block, build the maps, fetch the sidecar, assemble the entities and
submit them (`src/slots_processor/mod.rs`, lines 97–230). -/
def processSlotInner (env : Env) (slot : Nat) :
    Except ProcErr SlotOutcome × List Call :=
  match env.getBlock slot with
  | none => (.ok (.skipped .noBeaconBlock), [Call.getBlock slot])
  | some beaconBlock =>
    match beaconBlock.message.body.execution_payload with
    | none => (.ok (.skipped .noExecutionPayload), [Call.getBlock slot])
    | some executionPayload =>
      let hasKzgBlobCommitments :=
        match beaconBlock.message.body.blob_kzg_commitments with
        | some commitments => !commitments.isEmpty
        | none => false
      if !hasKzgBlobCommitments then
        (.ok (.skipped .noBlobCommitments), [Call.getBlock slot])
      else
        let executionBlockHash := executionPayload.block_hash
        match env.getBlockWithTxs executionBlockHash with
        | none =>
          (.error (.executionBlockNotFound executionBlockHash),
            [Call.getBlock slot, Call.getBlockWithTxs executionBlockHash])
        | some executionBlock =>
          let txMap := txHashToVersionedHashes executionBlock
          if txMap.isEmpty then
            (.error .beaconExecutionMismatch,
              [Call.getBlock slot, Call.getBlockWithTxs executionBlockHash])
          else
            let t3 := [Call.getBlock slot, Call.getBlockWithTxs executionBlockHash,
                       Call.getBlobs slot]
            match env.getBlobs slot with
            | none => (.ok (.skipped .noSidecar), t3)
            | some blobs =>
              if blobs.isEmpty then (.ok (.skipped .emptySidecar), t3)
              else
                match blockEntityTryFrom executionBlock slot with
                | .error e => (.error e, t3)
                | .ok blockEntity =>
                  match transactionsEntities executionBlock txMap with
                  | .error e => (.error e, t3)
                  | .ok txsEntities =>
                    match versionedHashToBlob env.calcVersionedHash blobs with
                    | .error e => (.error e, t3)
                    | .ok vhMap =>
                      match buildBlobEntities vhMap txMap with
                      | .error e => (.error e, t3)
                      | .ok blobEntities =>
                        let t4 := t3 ++ [Call.index blockEntity txsEntities blobEntities]
                        if env.indexOk blockEntity then (.ok .indexed, t4)
                        else (.error .indexFailed, t4)

/-- `SlotsProcessor::process_slot`: run the reorg check when
`enable_reorg_detection` is `Some(true)` (propagating its failure), then the
per-slot pipeline. -/
def processSlot (env : Env) (lastBlock : Option BlockData) (slot : Nat)
    (enableReorgDetection : Option Bool) :
    Except ProcErr SlotOutcome × Option BlockData × List Call :=
  match enableReorgDetection with
  | some true =>
    match detectAndHandleReorg env lastBlock slot with
    | (.error e, lastBlock2, t) => (.error e, lastBlock2, t)
    | (.ok _, lastBlock2, t) =>
      ((processSlotInner env slot).1, lastBlock2, t ++ (processSlotInner env slot).2)
  | _ =>
    ((processSlotInner env slot).1, lastBlock, (processSlotInner env slot).2)

/-- The closed slot interval the range driver iterates, in iteration order:
downward for `initial > final`, upward otherwise. -/
def slotsToProcess (initial final : Nat) : List Nat :=
  if initial > final then (List.range' final (initial - final + 1)).reverse
  else List.range' initial (final - initial + 1)

/-- The driver's loop body over an explicit slot list: process each slot with
the given reorg flag, wrapping the first failure in
`FailedSlotsProcessing { initial_slot, final_slot, failed_slot, error }`. -/
def runSlots (env : Env) (initial final : Nat) (enable : Bool) :
    Option BlockData → List Nat → Except SlotsErr Unit × Option BlockData × List Call
  | lastBlock, [] => (.ok (), lastBlock, [])
  | lastBlock, s :: rest =>
    match processSlot env lastBlock s (some enable) with
    | (.error e, lastBlock2, t) =>
      (.error (.failedSlotsProcessing initial final s e), lastBlock2, t)
    | (.ok _, lastBlock2, t) =>
      ((runSlots env initial final enable lastBlock2 rest).1,
       (runSlots env initial final enable lastBlock2 rest).2.1,
       t ++ (runSlots env initial final enable lastBlock2 rest).2.2)

/-- `SlotsProcessor::process_slots`: reverse iteration with reorg detection
disabled when `initial_slot > final_slot`, forward iteration with reorg
detection enabled otherwise. -/
def processSlots (env : Env) (lastBlock : Option BlockData) (initial final : Nat) :
    Except SlotsErr Unit × Option BlockData × List Call :=
  if initial > final then
    runSlots env initial final false lastBlock (slotsToProcess initial final)
  else
    runSlots env initial final true lastBlock (slotsToProcess initial final)

/-! ## Legacy pipeline (`src/slot_processor.rs`) -/

/-- Skip reasons logged by the legacy `SlotProcessor::process_slot`. -/
inductive OldSkip where
  | noBeaconBlock
  | noExecutionPayload
  | noBlobKzgCommitments
  | noBlobTxs
  | emptySidecar
  | noSidecar
deriving DecidableEq, Repr

/-- Observable per-slot outcome of the legacy pipeline on success. -/
inductive OldOutcome where
  | indexed
  | skipped (reason : OldSkip)
deriving DecidableEq, Repr

/-- Errors of the legacy pipeline and its driver. -/
inductive OldErr where
  | executionBlockNotFound (hash : H256)
  | missingBlockNumber
  | missingTo (txHash : H256)
  | noBlobTxFound (c : Commitment) (v : VH)
  | indexParseFailed
  | indexFailed
  | updateSlotFailed
deriving DecidableEq, Repr

/-- The legacy pipeline's transaction entities (`src/slot_processor.rs`, lines
193–211): transactions filtered to the map's keys, failing on a missing `to`
field. -/
def oldTransactionEntities (blockNumber : Nat) (eb : ExecutionBlock)
    (txMap : List (H256 × List VH)) : Except OldErr (List TransactionEntity) :=
  exceptMap
    (fun tx =>
      match tx.to_addr with
      | none => .error (.missingTo tx.hash)
      | some t => .ok ⟨tx.hash, blockNumber, tx.from_addr, t⟩)
    (eb.transactions.filter fun tx => (lookupA tx.hash txMap).isSome)

/-- `find_map` over the tx-to-versioned-hashes map: the first transaction whose
declared list contains the versioned hash. -/
def findTxForVH (v : VH) : List (H256 × List VH) → Option H256
  | [] => none
  | (h, vhs) :: rest => if v ∈ vhs then some h else findTxForVH v rest

/-- The legacy pipeline's blob entities (`src/slot_processor.rs`, lines
213–236): one entity per sidecar item, in sidecar order, with the versioned
hash computed from the commitment, the transaction found by searching the
declared lists, and the index parsed from the sidecar item's own index
string. -/
def oldBlobEntities (calcVH : Commitment → VH) (txMap : List (H256 × List VH)) :
    List Blob → Except OldErr (List BlobEntity)
  | [] => .ok []
  | bl :: rest =>
    let v := calcVH bl.kzg_commitment
    match findTxForVH v txMap with
    | none => .error (.noBlobTxFound bl.kzg_commitment v)
    | some txHash =>
      match parseU32 bl.index with
      | none => .error .indexParseFailed
      | some idx =>
        match oldBlobEntities calcVH txMap rest with
        | .error e => .error e
        | .ok bs => .ok (⟨v, bl.kzg_commitment, bl.blob, idx, txHash⟩ :: bs)

/-- The legacy `SlotProcessor::process_slot` (`src/slot_processor.rs`, lines
101–251): fetch the beacon block, skip on a missing payload or an absent
commitments field (an empty commitments list is not checked), fetch the
execution block, skip when no transaction declares blob hashes, fetch the
sidecar, then assemble and submit. -/
def oldProcessSlot (env : Env) (slot : Nat) : Except OldErr OldOutcome × List Call :=
  match env.getBlock slot with
  | none => (.ok (.skipped .noBeaconBlock), [Call.getBlock slot])
  | some beaconBlock =>
    match beaconBlock.message.body.execution_payload with
    | none => (.ok (.skipped .noExecutionPayload), [Call.getBlock slot])
    | some executionPayload =>
      match beaconBlock.message.body.blob_kzg_commitments with
      | none => (.ok (.skipped .noBlobKzgCommitments), [Call.getBlock slot])
      | some _ =>
        let executionBlockHash := executionPayload.block_hash
        match env.getBlockWithTxs executionBlockHash with
        | none =>
          (.error (.executionBlockNotFound executionBlockHash),
            [Call.getBlock slot, Call.getBlockWithTxs executionBlockHash])
        | some executionBlock =>
          let txMap := txHashToVersionedHashes executionBlock
          if txMap.isEmpty then
            (.ok (.skipped .noBlobTxs),
              [Call.getBlock slot, Call.getBlockWithTxs executionBlockHash])
          else
            let t3 := [Call.getBlock slot, Call.getBlockWithTxs executionBlockHash,
                       Call.getBlobs slot]
            match env.getBlobs slot with
            | none => (.ok (.skipped .noSidecar), t3)
            | some blobs =>
              if blobs.isEmpty then (.ok (.skipped .emptySidecar), t3)
              else
                match executionBlock.number with
                | none => (.error .missingBlockNumber, t3)
                | some blockNumber =>
                  let blockEntity : BlockEntity :=
                    ⟨executionBlockHash, slot, blockNumber, executionBlock.timestamp⟩
                  match oldTransactionEntities blockNumber executionBlock txMap with
                  | .error e => (.error e, t3)
                  | .ok txsEntities =>
                    match oldBlobEntities env.calcVersionedHash txMap blobs with
                    | .error e => (.error e, t3)
                    | .ok blobEntities =>
                      let t4 := t3 ++ [Call.index blockEntity txsEntities blobEntities]
                      if env.indexOk blockEntity then (.ok .indexed, t4)
                      else (.error .indexFailed, t4)

/-- `SlotProcessor::save_slot`: persist a slot through the downstream
indexer's `update_slot`. -/
def oldSave (env : Env) (slot : Nat) : Except OldErr Unit × List Call :=
  if env.updateSlotOk slot then (.ok (), [Call.updateSlot slot])
  else (.error .updateSlotFailed, [Call.updateSlot slot])

/-- The legacy driver's `while current_slot < end_slot` loop
(`src/slot_processor.rs`, lines 43–63): on a failed slot, persist
`current_slot - 1` and surface the bare error; when the loop ends, persist
`current_slot`.  `fuel` counts the remaining iterations; the driver passes
`end_slot - start_slot`, which is exact. -/
def oldLoop (env : Env) (endSlot : Nat) : Nat → Nat → Except OldErr Unit × List Call
  | 0, current => oldSave env current
  | fuel + 1, current =>
    if current < endSlot then
      match oldProcessSlot env current with
      | (.error e, t) =>
        match (oldSave env (current - 1)).1 with
        | .error se => (.error se, t ++ (oldSave env (current - 1)).2)
        | .ok _ => (.error e, t ++ (oldSave env (current - 1)).2)
      | (.ok _, t) =>
        ((oldLoop env endSlot fuel (current + 1)).1,
         t ++ (oldLoop env endSlot fuel (current + 1)).2)
    else oldSave env current

/-- The legacy `SlotProcessor::process_slots`: iterate from `start_slot` while
`current_slot < end_slot`, then persist the final `current_slot`. -/
def oldProcessSlots (env : Env) (startSlot endSlot : Nat) : Except OldErr Unit × List Call :=
  oldLoop env endSlot (endSlot - startSlot) startSlot

/-! ## Trace observations -/

/-- All blob entities submitted downstream in a trace. -/
def indexedBlobs (t : List Call) : List BlobEntity :=
  t.flatMap fun c =>
    match c with
    | .index _ _ bs => bs
    | _ => []

/-- Recognize an `update_slot` call. -/
def Call.isUpdateSlot : Call → Bool
  | .updateSlot _ => true
  | _ => false

/-- Recognize a `handle_reorged_slot` call. -/
def Call.isHandleReorged : Call → Bool
  | .handleReorgedSlot _ => true
  | _ => false

/-- Recognize a beacon block-header fetch. -/
def Call.isGetBlockHeader : Call → Bool
  | .getBlockHeader _ => true
  | _ => false

/-- Recognize a sidecar fetch. -/
def Call.isGetBlobs : Call → Bool
  | .getBlobs _ => true
  | _ => false

/-- Recognize an execution-block fetch. -/
def Call.isGetBlockWithTxs : Call → Bool
  | .getBlockWithTxs _ => true
  | _ => false

/-- Recognize a downstream `index` submission. -/
def Call.isIndexCall : Call → Bool
  | .index _ _ _ => true
  | _ => false

/-- Does a trace contain an `update_slot` call? -/
def hasUpdateSlot (t : List Call) : Bool := t.any Call.isUpdateSlot

/-- Does a trace contain a `handle_reorged_slot` call? -/
def hasHandleReorged (t : List Call) : Bool := t.any Call.isHandleReorged

/-- Does a trace contain a beacon block-header fetch? -/
def hasGetBlockHeader (t : List Call) : Bool := t.any Call.isGetBlockHeader

/-- Does a trace contain a sidecar fetch? -/
def hasGetBlobs (t : List Call) : Bool := t.any Call.isGetBlobs

/-- Does a trace contain an execution-block fetch? -/
def hasGetBlockWithTxs (t : List Call) : Bool := t.any Call.isGetBlockWithTxs

/-- Does a trace contain a downstream `index` submission? -/
def hasIndexCall (t : List Call) : Bool := t.any Call.isIndexCall

/-! ## Concrete oracles used by witnesses and counterexamples -/

/-- Happy-path beacon block at slot 100: execution payload with hash `170`,
one KZG commitment `1`. -/
def bbHappy : BeaconBlock := ⟨⟨100, ⟨some ⟨170⟩, some [1]⟩, 0⟩⟩

/-- Happy-path execution block `170`: one transaction `11` declaring the
versioned hash `1`. -/
def ebHappy : ExecutionBlock := ⟨some 170, some 5, 99, [⟨11, 1, some 2, [1]⟩]⟩

/-- Happy-path oracle: slot 100 carries one blob; headers chain without
reorgs (and slot 55 has no header); the versioned hash of a commitment is the
commitment itself; every downstream call succeeds. -/
def envHappy : Env where
  getBlock := fun s => if s = 100 then some bbHappy else none
  getBlobs := fun s => if s = 100 then some [⟨['0'], 1, 1000⟩] else none
  getBlockHeader := fun s => if s = 55 then none else some ⟨s, ⟨⟨s - 1, s⟩⟩⟩
  getBlockWithTxs := fun h => if h = 170 then some ebHappy else none
  calcVersionedHash := fun c => c
  indexOk := fun _ => true
  handleReorgedOk := fun _ => true
  updateSlotOk := fun _ => true

/-- Execution block with two blob transactions, one declared hash each. -/
def ebTwoTxs : ExecutionBlock :=
  ⟨some 170, some 5, 0, [⟨11, 1, some 2, [1]⟩, ⟨12, 1, some 2, [2]⟩]⟩

/-- Oracle with two commitments at slot 100 whose sidecar carries two blobs,
each belonging to a different transaction. -/
def envTwoBlobs : Env where
  getBlock := fun s => if s = 100 then some ⟨⟨100, ⟨some ⟨170⟩, some [1, 2]⟩, 0⟩⟩ else none
  getBlobs := fun s => if s = 100 then some [⟨['0'], 1, 500⟩, ⟨['1'], 2, 501⟩] else none
  getBlockHeader := fun _ => none
  getBlockWithTxs := fun h => if h = 170 then some ebTwoTxs else none
  calcVersionedHash := fun c => c
  indexOk := fun _ => true
  handleReorgedOk := fun _ => true
  updateSlotOk := fun _ => true

/-- Oracle with a consistency violation at slot 100: the beacon block carries
one commitment, but the execution block's only transaction declares no blob
hashes. -/
def envMismatch : Env where
  getBlock := fun s => if s = 100 then some ⟨⟨100, ⟨some ⟨170⟩, some [1]⟩, 0⟩⟩ else none
  getBlobs := fun _ => none
  getBlockHeader := fun _ => none
  getBlockWithTxs := fun h =>
    if h = 170 then some ⟨some 170, some 5, 0, [⟨11, 1, some 2, []⟩]⟩ else none
  calcVersionedHash := fun c => c
  indexOk := fun _ => true
  handleReorgedOk := fun _ => true
  updateSlotOk := fun _ => true

/-- Oracle whose beacon block at slot 100 has an execution payload and an
empty (present) commitments list. -/
def envEmptyCommitments : Env where
  getBlock := fun s => if s = 100 then some ⟨⟨100, ⟨some ⟨170⟩, some []⟩, 0⟩⟩ else none
  getBlobs := fun _ => none
  getBlockHeader := fun _ => none
  getBlockWithTxs := fun h =>
    if h = 170 then some ⟨some 170, some 5, 0, [⟨11, 1, some 2, []⟩]⟩ else none
  calcVersionedHash := fun c => c
  indexOk := fun _ => true
  handleReorgedOk := fun _ => true
  updateSlotOk := fun _ => true


/-! ## Lemmas: decimal round trip -/

theorem digitChar_isDigit {d : Nat} (h : d < 10) : isDigitChar (digitChar d) = true := by
  interval_cases d <;> decide

theorem digitVal_digitChar {d : Nat} (h : d < 10) : digitVal (digitChar d) = d := by
  interval_cases d <;> decide

theorem parseDigitsAux_append (xs ys : List Char) (acc : Nat) :
    parseDigitsAux acc (xs ++ ys) =
      (parseDigitsAux acc xs).bind fun a => parseDigitsAux a ys := by
  induction xs generalizing acc with
  | nil => simp [parseDigitsAux]
  | cons c cs ih =>
    simp only [List.cons_append, parseDigitsAux]
    by_cases h : isDigitChar c = true
    · simp [h, ih]
    · simp [h]

theorem natToDigitsRevAux_digits {fuel n : Nat} :
    ∀ c ∈ natToDigitsRevAux fuel n, isDigitChar c = true := by
  induction fuel generalizing n with
  | zero => intro c hc; simp [natToDigitsRevAux] at hc
  | succ fuel ih =>
    intro c hc
    by_cases h : n = 0
    · simp [natToDigitsRevAux, h] at hc
    · simp only [natToDigitsRevAux, if_neg h, List.mem_cons] at hc
      rcases hc with rfl | hc
      · exact digitChar_isDigit (by omega : n % 10 < 10)
      · exact ih c hc

theorem parseDigitsAux_natToDigitsRevAux {fuel n : Nat} (h : n ≤ fuel) (acc : Nat) :
    parseDigitsAux acc (natToDigitsRevAux fuel n).reverse =
      some (acc * 10 ^ (natToDigitsRevAux fuel n).length + n) := by
  induction fuel generalizing n acc with
  | zero =>
    have hn : n = 0 := by omega
    subst hn
    simp [natToDigitsRevAux, parseDigitsAux]
  | succ fuel ih =>
    by_cases h0 : n = 0
    · subst h0; simp [natToDigitsRevAux, parseDigitsAux]
    · have hdiv : n / 10 ≤ fuel := by
        have hlt : n / 10 < n := Nat.div_lt_self (Nat.pos_of_ne_zero h0) (by norm_num)
        omega
      have hmod : n % 10 < 10 := Nat.mod_lt _ (by omega)
      simp only [natToDigitsRevAux, if_neg h0, List.reverse_cons]
      rw [parseDigitsAux_append, ih hdiv]
      simp only [Option.some_bind, parseDigitsAux, digitChar_isDigit hmod, if_true,
        digitVal_digitChar hmod, List.length_cons]
      congr 1
      have hpow : (10 : Nat) ^ ((natToDigitsRevAux fuel (n / 10)).length + 1) =
          10 ^ (natToDigitsRevAux fuel (n / 10)).length * 10 := pow_succ 10 _
      rw [hpow]
      have hre : (acc * 10 ^ (natToDigitsRevAux fuel (n / 10)).length + n / 10) * 10 + n % 10 =
          acc * (10 ^ (natToDigitsRevAux fuel (n / 10)).length * 10) +
            (n / 10 * 10 + n % 10) := by ring
      rw [hre]
      congr 1
      omega

theorem natToDigitsRev_ne_nil {n : Nat} (h : n ≠ 0) : natToDigitsRev n ≠ [] := by
  obtain ⟨m, rfl⟩ : ∃ m, n = m + 1 := ⟨n - 1, by omega⟩
  simp [natToDigitsRev, natToDigitsRevAux]

theorem natToString_digits {n : Nat} : ∀ c ∈ natToString n, isDigitChar c = true := by
  intro c hc
  by_cases h : n = 0
  · subst h
    simp [natToString] at hc
    subst hc
    decide
  · simp only [natToString, if_neg h, List.mem_reverse, natToDigitsRev] at hc
    exact natToDigitsRevAux_digits c hc

theorem natToString_ne_nil (n : Nat) : natToString n ≠ [] := by
  by_cases h : n = 0
  · subst h; decide
  · simp only [natToString, if_neg h, ne_eq, List.reverse_eq_nil_iff]
    exact natToDigitsRev_ne_nil h

theorem stripPlus_digits {s : List Char} (hd : ∀ c ∈ s, isDigitChar c = true)
    (hne : s ≠ []) : stripPlus s = s := by
  cases s with
  | nil => exact absurd rfl hne
  | cons c cs =>
    have hc := hd c (List.mem_cons_self c cs)
    simp only [stripPlus]
    rw [if_neg]
    intro h
    rw [h] at hc
    exact absurd hc (by decide)

theorem parseU32_natToString {n : Nat} (h : n < 2 ^ 32) :
    parseU32 (natToString n) = some n := by
  by_cases h0 : n = 0
  · subst h0; decide
  · obtain ⟨c, cs, hcs⟩ : ∃ c cs, natToString n = c :: cs := by
      cases hx : natToString n with
      | nil => exact absurd hx (natToString_ne_nil n)
      | cons c cs => exact ⟨c, cs, rfl⟩
    have hstrip := stripPlus_digits (natToString_digits) (natToString_ne_nil n)
    have hparse : parseDigitsAux 0 (natToString n) = some n := by
      simp only [natToString, if_neg h0, natToDigitsRev]
      rw [parseDigitsAux_natToDigitsRevAux (le_refl n) 0]
      simp
    have hemp : (natToString n).isEmpty = false := by rw [hcs]; rfl
    simp only [parseU32]
    rw [hstrip, hemp]
    simp only [Bool.false_eq_true, if_false]
    rw [hparse]
    simp only []
    rw [if_pos h]

theorem natToString_ne_headChars (n : Nat) : natToString n ≠ headChars := by
  intro he
  have hm : Char.ofNat 104 ∈ natToString n := by
    rw [he]; simp [headChars]
  exact absurd (natToString_digits _ hm) (by decide)

theorem natToString_ne_finalizedChars (n : Nat) : natToString n ≠ finalizedChars := by
  intro he
  have hm : Char.ofNat 102 ∈ natToString n := by
    rw [he]; simp [finalizedChars]
  exact absurd (natToString_digits _ hm) (by decide)

/-- C10: `BlockId` serialization and parsing round-trip — `Display` renders
`Head` as `"head"`, `Finalized` as `"finalized"` and `Slot(n)` as the decimal
of `n`, and `FromStr` applied to the rendered string returns exactly the
original `BlockId` (slots being unsigned 32-bit values). -/
theorem C10_blockId_display_fromStr_roundtrip (b : BlockId) (h : b.wf) :
    BlockId.display .head = headChars ∧
    BlockId.display .finalized = finalizedChars ∧
    (∀ n, BlockId.display (.slot n) = natToString n) ∧
    BlockId.fromStr b.display = .ok b := by
  refine ⟨rfl, rfl, fun _ => rfl, ?_⟩
  cases b with
  | head => rfl
  | finalized => rfl
  | slot n =>
    have hwf : n < 2 ^ 32 := h
    simp only [BlockId.display, BlockId.fromStr]
    rw [if_neg (natToString_ne_headChars n), if_neg (natToString_ne_finalizedChars n),
      parseU32_natToString hwf]

/-- C10 witness: the round trip evaluated at the concrete `BlockId` `Slot
12345`. -/
theorem C10_witness :
    BlockId.fromStr (BlockId.display (.slot 12345)) = .ok (.slot 12345) :=
  (C10_blockId_display_fromStr_roundtrip (.slot 12345) (by decide)).2.2.2

/-! ## Lemmas: traces of the pipelines -/

instance {ε α : Type} [DecidableEq ε] [DecidableEq α] : DecidableEq (Except ε α) := fun a b =>
  match a, b with
  | .error e, .error e2 =>
    if h : e = e2 then .isTrue (by rw [h]) else .isFalse (fun hc => h (Except.error.inj hc))
  | .error _, .ok _ => .isFalse (fun hc => Except.noConfusion hc)
  | .ok _, .error _ => .isFalse (fun hc => Except.noConfusion hc)
  | .ok v, .ok v2 =>
    if h : v = v2 then .isTrue (by rw [h]) else .isFalse (fun hc => h (Except.ok.inj hc))

theorem processSlotInner_trace_shape (env : Env) (slot : Nat) :
    (processSlotInner env slot).2 = [Call.getBlock slot] ∨
    (∃ h, (processSlotInner env slot).2 = [Call.getBlock slot, Call.getBlockWithTxs h]) ∨
    (∃ h, (processSlotInner env slot).2 =
      [Call.getBlock slot, Call.getBlockWithTxs h, Call.getBlobs slot]) ∨
    (∃ h b t bs, (processSlotInner env slot).2 =
      [Call.getBlock slot, Call.getBlockWithTxs h, Call.getBlobs slot, Call.index b t bs]) := by
  unfold processSlotInner
  simp only []
  repeat' split
  all_goals
    first
    | exact Or.inl rfl
    | exact Or.inr (Or.inl ⟨_, rfl⟩)
    | exact Or.inr (Or.inr (Or.inl ⟨_, rfl⟩))
    | exact Or.inr (Or.inr (Or.inr ⟨_, _, _, _, rfl⟩))

theorem processSlotInner_calls (env : Env) (slot : Nat) :
    ∀ c ∈ (processSlotInner env slot).2,
      c = Call.getBlock slot ∨ (∃ h, c = Call.getBlockWithTxs h) ∨
      c = Call.getBlobs slot ∨ ∃ b t bs, c = Call.index b t bs := by
  intro c hc
  rcases processSlotInner_trace_shape env slot with hs | ⟨h, hs⟩ | ⟨h, hs⟩ | ⟨h, b, t, bs, hs⟩ <;>
    rw [hs] at hc <;> simp only [List.mem_cons, List.mem_singleton, List.not_mem_nil,
      or_false] at hc
  · tauto
  · rcases hc with rfl | rfl
    · tauto
    · exact Or.inr (Or.inl ⟨_, rfl⟩)
  · rcases hc with rfl | rfl | rfl
    · tauto
    · exact Or.inr (Or.inl ⟨_, rfl⟩)
    · tauto
  · rcases hc with rfl | rfl | rfl | rfl
    · tauto
    · exact Or.inr (Or.inl ⟨_, rfl⟩)
    · tauto
    · exact Or.inr (Or.inr (Or.inr ⟨_, _, _, rfl⟩))

theorem detectAndHandleReorg_trace_shape (env : Env) (lb : Option BlockData) (slot : Nat) :
    (detectAndHandleReorg env lb slot).2.2 = [Call.getBlockHeader slot] ∨
    (detectAndHandleReorg env lb slot).2.2 =
      [Call.getBlockHeader slot, Call.handleReorgedSlot slot] := by
  unfold detectAndHandleReorg
  repeat' split
  all_goals first | exact Or.inl rfl | exact Or.inr rfl

theorem detectAndHandleReorg_calls (env : Env) (lb : Option BlockData) (slot : Nat) :
    ∀ c ∈ (detectAndHandleReorg env lb slot).2.2,
      c = Call.getBlockHeader slot ∨ c = Call.handleReorgedSlot slot := by
  intro c hc
  rcases detectAndHandleReorg_trace_shape env lb slot with hs | hs <;> rw [hs] at hc <;>
    simp only [List.mem_cons, List.mem_singleton, List.not_mem_nil, or_false] at hc <;> tauto

theorem processSlot_calls (env : Env) (lb : Option BlockData) (slot : Nat)
    (en : Option Bool) :
    ∀ c ∈ (processSlot env lb slot en).2.2,
      c = Call.getBlockHeader slot ∨ c = Call.handleReorgedSlot slot ∨
      c = Call.getBlock slot ∨ (∃ h, c = Call.getBlockWithTxs h) ∨
      c = Call.getBlobs slot ∨ ∃ b t bs, c = Call.index b t bs := by
  intro c hc
  match en with
  | none =>
    simp only [processSlot] at hc
    have := processSlotInner_calls env slot c hc
    tauto
  | some false =>
    simp only [processSlot] at hc
    have := processSlotInner_calls env slot c hc
    tauto
  | some true =>
    simp only [processSlot] at hc
    split at hc
    case _ e lb2 t heq =>
      have := detectAndHandleReorg_calls env lb slot c (by rw [heq]; exact hc)
      tauto
    case _ u lb2 t heq =>
      rcases List.mem_append.mp hc with hc2 | hc2
      · have := detectAndHandleReorg_calls env lb slot c (by rw [heq]; exact hc2)
        tauto
      · have := processSlotInner_calls env slot c hc2
        tauto

theorem oldProcessSlot_trace_shape (env : Env) (slot : Nat) :
    (oldProcessSlot env slot).2 = [Call.getBlock slot] ∨
    (∃ h, (oldProcessSlot env slot).2 = [Call.getBlock slot, Call.getBlockWithTxs h]) ∨
    (∃ h, (oldProcessSlot env slot).2 =
      [Call.getBlock slot, Call.getBlockWithTxs h, Call.getBlobs slot]) ∨
    (∃ h b t bs, (oldProcessSlot env slot).2 =
      [Call.getBlock slot, Call.getBlockWithTxs h, Call.getBlobs slot, Call.index b t bs]) := by
  unfold oldProcessSlot
  simp only []
  repeat' split
  all_goals
    first
    | exact Or.inl rfl
    | exact Or.inr (Or.inl ⟨_, rfl⟩)
    | exact Or.inr (Or.inr (Or.inl ⟨_, rfl⟩))
    | exact Or.inr (Or.inr (Or.inr ⟨_, _, _, _, rfl⟩))

theorem oldProcessSlot_calls (env : Env) (slot : Nat) :
    ∀ c ∈ (oldProcessSlot env slot).2,
      c = Call.getBlock slot ∨ (∃ h, c = Call.getBlockWithTxs h) ∨
      c = Call.getBlobs slot ∨ ∃ b t bs, c = Call.index b t bs := by
  intro c hc
  rcases oldProcessSlot_trace_shape env slot with hs | ⟨h, hs⟩ | ⟨h, hs⟩ | ⟨h, b, t, bs, hs⟩ <;>
    rw [hs] at hc <;> simp only [List.mem_cons, List.mem_singleton, List.not_mem_nil,
      or_false] at hc
  · tauto
  · rcases hc with rfl | rfl
    · tauto
    · exact Or.inr (Or.inl ⟨_, rfl⟩)
  · rcases hc with rfl | rfl | rfl
    · tauto
    · exact Or.inr (Or.inl ⟨_, rfl⟩)
    · tauto
  · rcases hc with rfl | rfl | rfl | rfl
    · tauto
    · exact Or.inr (Or.inl ⟨_, rfl⟩)
    · tauto
    · exact Or.inr (Or.inr (Or.inr ⟨_, _, _, rfl⟩))

theorem any_eq_false_of_calls {t : List Call} {p : Call → Bool}
    (h : ∀ c ∈ t, p c = false) : t.any p = false := by
  rw [List.any_eq_false]
  intro c hc
  simp [h c hc]

theorem processSlot_disabled (env : Env) (lb : Option BlockData) (slot : Nat) :
    processSlot env lb slot (some false) =
      ((processSlotInner env slot).1, lb, (processSlotInner env slot).2) := rfl

theorem processSlot_noDetection (env : Env) (lb : Option BlockData) (slot : Nat) :
    processSlot env lb slot none =
      ((processSlotInner env slot).1, lb, (processSlotInner env slot).2) := rfl

theorem hasUpdateSlot_processSlot (env : Env) (lb : Option BlockData) (slot : Nat)
    (en : Option Bool) : hasUpdateSlot (processSlot env lb slot en).2.2 = false := by
  apply any_eq_false_of_calls
  intro c hc
  rcases processSlot_calls env lb slot en c hc with
    rfl | rfl | rfl | ⟨h, rfl⟩ | rfl | ⟨b, t, bs, rfl⟩ <;> rfl

theorem hasHandleReorged_processSlotInner (env : Env) (slot : Nat) :
    hasHandleReorged (processSlotInner env slot).2 = false := by
  apply any_eq_false_of_calls
  intro c hc
  rcases processSlotInner_calls env slot c hc with
    rfl | ⟨h, rfl⟩ | rfl | ⟨b, t, bs, rfl⟩ <;> rfl

theorem hasGetBlockHeader_processSlotInner (env : Env) (slot : Nat) :
    hasGetBlockHeader (processSlotInner env slot).2 = false := by
  apply any_eq_false_of_calls
  intro c hc
  rcases processSlotInner_calls env slot c hc with
    rfl | ⟨h, rfl⟩ | rfl | ⟨b, t, bs, rfl⟩ <;> rfl

theorem hasUpdateSlot_oldProcessSlot (env : Env) (slot : Nat) :
    hasUpdateSlot (oldProcessSlot env slot).2 = false := by
  apply any_eq_false_of_calls
  intro c hc
  rcases oldProcessSlot_calls env slot c hc with
    rfl | ⟨h, rfl⟩ | rfl | ⟨b, t, bs, rfl⟩ <;> rfl

theorem runSlots_any_false (env : Env) (a b : Nat) (fl : Bool) (p : Call → Bool)
    (hp : ∀ lb s, ((processSlot env lb s (some fl)).2.2).any p = false) :
    ∀ slots lb, ((runSlots env a b fl lb slots).2.2).any p = false := by
  intro slots
  induction slots with
  | nil => intro lb; rfl
  | cons s rest ih =>
    intro lb
    rcases hps : processSlot env lb s (some fl) with ⟨r, lb2, t⟩
    have hpt : t.any p = false := by have := hp lb s; rw [hps] at this; exact this
    cases r with
    | error e => simp only [runSlots, hps]; exact hpt
    | ok u =>
      simp only [runSlots, hps, List.any_append]
      rw [hpt, ih lb2]
      rfl

theorem hasUpdateSlot_processSlots (env : Env) (lb : Option BlockData) (a b : Nat) :
    hasUpdateSlot (processSlots env lb a b).2.2 = false := by
  unfold processSlots hasUpdateSlot
  split <;>
    exact runSlots_any_false env a b _ Call.isUpdateSlot
      (fun lb2 s => hasUpdateSlot_processSlot env lb2 s _) _ lb

theorem hasHandleReorged_processSlots_reverse (env : Env) (lb : Option BlockData)
    (a b : Nat) (h : b < a) :
    hasHandleReorged (processSlots env lb a b).2.2 = false := by
  unfold processSlots hasHandleReorged
  rw [if_pos h]
  exact runSlots_any_false env a b false Call.isHandleReorged
    (fun lb2 s => by rw [processSlot_disabled]; exact hasHandleReorged_processSlotInner env s)
    _ lb

theorem hasGetBlockHeader_processSlots_reverse (env : Env) (lb : Option BlockData)
    (a b : Nat) (h : b < a) :
    hasGetBlockHeader (processSlots env lb a b).2.2 = false := by
  unfold processSlots hasGetBlockHeader
  rw [if_pos h]
  exact runSlots_any_false env a b false Call.isGetBlockHeader
    (fun lb2 s => by rw [processSlot_disabled]; exact hasGetBlockHeader_processSlotInner env s)
    _ lb

theorem runSlots_error_shape (env : Env) (a b : Nat) (fl : Bool) :
    ∀ slots lb err, (runSlots env a b fl lb slots).1 = .error err →
      ∃ s e lb2, s ∈ slots ∧ (processSlot env lb2 s (some fl)).1 = .error e ∧
        err = .failedSlotsProcessing a b s e := by
  intro slots
  induction slots with
  | nil => intro lb err herr; exact absurd herr (by simp [runSlots])
  | cons s rest ih =>
    intro lb err herr
    rcases hps : processSlot env lb s (some fl) with ⟨r, lb2, t⟩
    cases r with
    | error e =>
      simp only [runSlots, hps] at herr
      refine ⟨s, e, lb, List.mem_cons_self s rest, by rw [hps], ?_⟩
      exact (Except.error.inj herr).symm
    | ok u =>
      simp only [runSlots, hps] at herr
      obtain ⟨s2, e, lb3, hmem, hfail, hshape⟩ := ih lb2 err herr
      exact ⟨s2, e, lb3, List.mem_cons_of_mem s hmem, hfail, hshape⟩

theorem oldLoop_ok_trace (env : Env) (endSlot : Nat) :
    ∀ fuel current, current + fuel = endSlot →
      (oldLoop env endSlot fuel current).1 = .ok () →
      ∃ t, (oldLoop env endSlot fuel current).2 = t ++ [Call.updateSlot endSlot] ∧
        hasUpdateSlot t = false := by
  intro fuel
  induction fuel with
  | zero =>
    intro current h hok
    have hc : current = endSlot := by omega
    subst hc
    simp only [oldLoop, oldSave] at hok ⊢
    by_cases hu : env.updateSlotOk current = true
    · rw [if_pos hu]
      exact ⟨[], rfl, rfl⟩
    · rw [if_neg hu] at hok
      exact absurd hok (by simp)
  | succ fuel ih =>
    intro current h hok
    have hlt : current < endSlot := by omega
    rcases hps : oldProcessSlot env current with ⟨r, t⟩
    cases r with
    | error e =>
      simp only [oldLoop, if_pos hlt, hps] at hok
      split at hok <;> exact absurd hok (by simp)
    | ok u =>
      simp only [oldLoop, if_pos hlt, hps] at hok ⊢
      obtain ⟨t2, ht2, hno⟩ := ih (current + 1) (by omega) hok
      refine ⟨t ++ t2, ?_, ?_⟩
      · rw [ht2, List.append_assoc]
      · have hpt : hasUpdateSlot t = false := by
          have := hasUpdateSlot_oldProcessSlot env current
          rw [hps] at this
          exact this
        unfold hasUpdateSlot at hpt hno ⊢
        rw [List.any_append, hpt, hno]
        rfl

theorem oldLoop_error_shape (env : Env) (endSlot : Nat) :
    ∀ fuel current e, (oldLoop env endSlot fuel current).1 = .error e →
      e ≠ .updateSlotFailed →
      ∃ s, current ≤ s ∧ s < endSlot ∧ (oldProcessSlot env s).1 = .error e ∧
        (oldLoop env endSlot fuel current).2.getLast? = some (Call.updateSlot (s - 1)) := by
  intro fuel
  induction fuel with
  | zero =>
    intro current e herr hne
    simp only [oldLoop, oldSave] at herr
    by_cases hu : env.updateSlotOk current = true
    · rw [if_pos hu] at herr
      exact absurd herr (by simp)
    · rw [if_neg hu] at herr
      exact absurd (Except.error.inj herr).symm hne
  | succ fuel ih =>
    intro current e herr hne
    by_cases hlt : current < endSlot
    · rcases hps : oldProcessSlot env current with ⟨r, t⟩
      cases r with
      | error e0 =>
        simp only [oldLoop, if_pos hlt, hps] at herr ⊢
        by_cases hu : env.updateSlotOk (current - 1) = true
        · have hsv : (oldSave env (current - 1)).1 = .ok () := by
            simp only [oldSave, if_pos hu]
          rw [hsv] at herr ⊢
          have he : e = e0 := (Except.error.inj herr).symm
          subst he
          refine ⟨current, le_refl current, hlt, by rw [hps], ?_⟩
          simp only [oldSave, if_pos hu]
          rw [List.getLast?_concat]
        · have hsv : (oldSave env (current - 1)).1 = .error .updateSlotFailed := by
            simp only [oldSave, if_neg hu]
          rw [hsv] at herr
          exact absurd (Except.error.inj herr).symm hne
      | ok u =>
        simp only [oldLoop, if_pos hlt, hps] at herr ⊢
        obtain ⟨s, hs1, hs2, hs3, hs4⟩ := ih (current + 1) e herr hne
        refine ⟨s, by omega, hs2, hs3, ?_⟩
        rw [List.getLast?_append, hs4]
        rfl
    · simp only [oldLoop, if_neg hlt, oldSave] at herr
      by_cases hu : env.updateSlotOk current = true
      · rw [if_pos hu] at herr
        exact absurd herr (by simp)
      · rw [if_neg hu] at herr
        exact absurd (Except.error.inj herr).symm hne

theorem oldLoop_getBlock_bound (env : Env) (endSlot : Nat) :
    ∀ fuel current s, Call.getBlock s ∈ (oldLoop env endSlot fuel current).2 →
      current ≤ s ∧ s < endSlot := by
  intro fuel
  induction fuel with
  | zero =>
    intro current s hmem
    simp only [oldLoop, oldSave] at hmem
    by_cases hu : env.updateSlotOk current = true
    · rw [if_pos hu] at hmem; simp at hmem
    · rw [if_neg hu] at hmem; simp at hmem
  | succ fuel ih =>
    intro current s hmem
    by_cases hlt : current < endSlot
    · rcases hps : oldProcessSlot env current with ⟨r, t⟩
      have htcalls : ∀ c ∈ t, c = Call.getBlock current ∨ (∃ h, c = Call.getBlockWithTxs h) ∨
          c = Call.getBlobs current ∨ ∃ b t2 bs, c = Call.index b t2 bs := by
        have := oldProcessSlot_calls env current
        rw [hps] at this
        exact this
      cases r with
      | error e =>
        simp only [oldLoop, if_pos hlt, hps] at hmem
        split at hmem <;>
        · rcases List.mem_append.mp hmem with hm | hm
          · rcases htcalls _ hm with heq | ⟨h2, heq⟩ | heq | ⟨b, t2, bs, heq⟩
            · cases Call.getBlock.inj heq
              exact ⟨le_refl _, hlt⟩
            · exact absurd heq (by simp)
            · exact absurd heq (by simp)
            · exact absurd heq (by simp)
          · simp only [oldSave] at hm
            by_cases hu : env.updateSlotOk (current - 1) = true
            · rw [if_pos hu] at hm; simp at hm
            · rw [if_neg hu] at hm; simp at hm
      | ok u =>
        simp only [oldLoop, if_pos hlt, hps] at hmem
        rcases List.mem_append.mp hmem with hm | hm
        · rcases htcalls _ hm with heq | ⟨h2, heq⟩ | heq | ⟨b, t2, bs, heq⟩
          · cases Call.getBlock.inj heq
            exact ⟨le_refl _, hlt⟩
          · exact absurd heq (by simp)
          · exact absurd heq (by simp)
          · exact absurd heq (by simp)
        · have := ih (current + 1) s hm
          omega
    · simp only [oldLoop, if_neg hlt, oldSave] at hmem
      by_cases hu : env.updateSlotOk current = true
      · rw [if_pos hu] at hmem; simp at hmem
      · rw [if_neg hu] at hmem; simp at hmem

/-! ## Lemmas: entity assembly -/

theorem lookupA_mem {v : α} {k : Nat} :
    ∀ {l : List (Nat × α)}, lookupA k l = some v → (k, v) ∈ l := by
  intro l
  induction l with
  | nil => intro h; simp [lookupA] at h
  | cons kv rest ih =>
    intro h
    rcases kv with ⟨k2, v2⟩
    simp only [lookupA] at h
    by_cases hk : k = k2
    · rw [if_pos hk] at h
      have hv := Option.some.inj h
      subst hv
      subst hk
      exact List.mem_cons_self _ _
    · rw [if_neg hk] at h
      exact List.mem_cons_of_mem _ (ih h)

theorem versionedHashToBlob_keys (calcVH : Commitment → VH) :
    ∀ {items : List Blob} {m : List (VH × Blob)},
      versionedHashToBlob calcVH items = .ok m →
      ∀ kb ∈ m, kb.1 = calcVH kb.2.kzg_commitment := by
  intro items
  induction items with
  | nil =>
    intro m h kb hkb
    have hm := Except.ok.inj h
    subst hm
    simp at hkb
  | cons bl rest ih =>
    intro m h kb hkb
    simp only [versionedHashToBlob] at h
    split at h
    · exact absurd h (by simp)
    case _ m2 heq =>
      split at h
      · exact absurd h (by simp)
      · have hm := Except.ok.inj h
        subst hm
        rcases List.mem_cons.mp hkb with rfl | hkb2
        · rfl
        · exact ih heq kb hkb2

theorem blobEntitiesForTx_spec (vhMap : List (VH × Blob)) (txHash : H256) :
    ∀ (vhs : List VH) (i : Nat) (out : List BlobEntity),
      blobEntitiesForTx vhMap txHash i vhs = .ok out →
      ∀ b ∈ out, b.tx_hash = txHash ∧
        (∃ j, b.index = i + j ∧ vhs.get? j = some b.versioned_hash) ∧
        ∃ bl, lookupA b.versioned_hash vhMap = some bl ∧
          b.commitment = bl.kzg_commitment ∧ b.data = bl.blob := by
  intro vhs
  induction vhs with
  | nil =>
    intro i out h b hb
    have hm := Except.ok.inj h
    subst hm
    simp at hb
  | cons v vs ih =>
    intro i out h b hb
    simp only [blobEntitiesForTx] at h
    split at h
    · exact absurd h (by simp)
    case _ bl heq =>
      split at h
      · exact absurd h (by simp)
      case _ rest2 heq2 =>
        have hm := Except.ok.inj h
        subst hm
        rcases List.mem_cons.mp hb with rfl | hb2
        · exact ⟨rfl, ⟨0, rfl, rfl⟩, bl, heq, rfl, rfl⟩
        · obtain ⟨h1, ⟨j, hj1, hj2⟩, h3⟩ := ih (i + 1) rest2 heq2 b hb2
          exact ⟨h1, ⟨j + 1, by omega, hj2⟩, h3⟩

theorem buildBlobEntities_spec (vhMap : List (VH × Blob)) :
    ∀ (txMap : List (H256 × List VH)) (out : List BlobEntity),
      buildBlobEntities vhMap txMap = .ok out →
      ∀ b ∈ out, ∃ vhs, (b.tx_hash, vhs) ∈ txMap ∧
        vhs.get? b.index = some b.versioned_hash ∧
        ∃ bl, lookupA b.versioned_hash vhMap = some bl ∧
          b.commitment = bl.kzg_commitment ∧ b.data = bl.blob := by
  intro txMap
  induction txMap with
  | nil =>
    intro out h b hb
    have hm := Except.ok.inj h
    subst hm
    simp at hb
  | cons p rest ih =>
    rcases p with ⟨txHash, vhs⟩
    intro out h b hb
    simp only [buildBlobEntities] at h
    split at h
    · exact absurd h (by simp)
    case _ bs heq =>
      split at h
      · exact absurd h (by simp)
      case _ bs2 heq2 =>
        have hm := Except.ok.inj h
        subst hm
        rcases List.mem_append.mp hb with hm2 | hm2
        · obtain ⟨htx, ⟨j, hj1, hj2⟩, hbl⟩ :=
            blobEntitiesForTx_spec vhMap txHash vhs 0 bs heq b hm2
          refine ⟨vhs, ?_, ?_, hbl⟩
          · rw [htx]
            exact List.mem_cons_self _ _
          · have hidx : b.index = j := by omega
            rw [hidx]
            exact hj2
        · obtain ⟨vhs2, hmem, hrest⟩ := ih bs2 heq2 b hm2
          exact ⟨vhs2, List.mem_cons_of_mem _ hmem, hrest⟩

theorem oldBlobEntities_spec (calcVH : Commitment → VH) (txMap : List (H256 × List VH)) :
    ∀ (items : List Blob) (out : List BlobEntity),
      oldBlobEntities calcVH txMap items = .ok out →
      ∀ b ∈ out, b.versioned_hash = calcVH b.commitment ∧
        ∃ bl ∈ items, b.commitment = bl.kzg_commitment ∧ b.data = bl.blob ∧
          parseU32 bl.index = some b.index ∧
          findTxForVH (calcVH bl.kzg_commitment) txMap = some b.tx_hash := by
  intro items
  induction items with
  | nil =>
    intro out h b hb
    have hm := Except.ok.inj h
    subst hm
    simp at hb
  | cons bl rest ih =>
    intro out h b hb
    simp only [oldBlobEntities] at h
    split at h
    · exact absurd h (by simp)
    case _ txHash heq =>
      split at h
      · exact absurd h (by simp)
      case _ idx heq2 =>
        split at h
        · exact absurd h (by simp)
        case _ bs heq3 =>
          have hm := Except.ok.inj h
          subst hm
          rcases List.mem_cons.mp hb with rfl | hb2
          · exact ⟨rfl, bl, List.mem_cons_self _ _, rfl, rfl, heq2, heq⟩
          · obtain ⟨h1, bl2, hbl2, hrest⟩ := ih bs heq3 b hb2
            exact ⟨h1, bl2, List.mem_cons_of_mem _ hbl2, hrest⟩

theorem indexedBlobs_mem {b : BlobEntity} {t : List Call} (h : b ∈ indexedBlobs t) :
    ∃ blk txs bs, Call.index blk txs bs ∈ t ∧ b ∈ bs := by
  unfold indexedBlobs at h
  rw [List.mem_flatMap] at h
  obtain ⟨c, hc, hb⟩ := h
  cases c with
  | index blk txs bs => exact ⟨blk, txs, bs, hc, hb⟩
  | getBlockHeader s => simp at hb
  | getBlock s => simp at hb
  | getBlockWithTxs s => simp at hb
  | getBlobs s => simp at hb
  | handleReorgedSlot s => simp at hb
  | updateSlot s => simp at hb

theorem indexedBlobs_append (t t2 : List Call) :
    indexedBlobs (t ++ t2) = indexedBlobs t ++ indexedBlobs t2 := by
  unfold indexedBlobs
  rw [List.flatMap_append]

theorem processSlotInner_index_inversion (env : Env) (slot : Nat)
    {blk : BlockEntity} {txs : List TransactionEntity} {bs : List BlobEntity}
    (h : Call.index blk txs bs ∈ (processSlotInner env slot).2) :
    ∃ bb payload eb sblobs vhMap,
      env.getBlock slot = some bb ∧
      bb.message.body.execution_payload = some payload ∧
      env.getBlockWithTxs payload.block_hash = some eb ∧
      env.getBlobs slot = some sblobs ∧
      versionedHashToBlob env.calcVersionedHash sblobs = .ok vhMap ∧
      transactionsEntities eb (txHashToVersionedHashes eb) = .ok txs ∧
      buildBlobEntities vhMap (txHashToVersionedHashes eb) = .ok bs := by
  unfold processSlotInner at h
  simp only [] at h
  repeat' split at h
  all_goals simp at h
  all_goals
    obtain ⟨rfl, rfl, rfl⟩ := h
  all_goals
    exact ⟨_, _, _, _, _, by assumption, by assumption, by assumption, by assumption,
      by assumption, by assumption, by assumption⟩

theorem oldProcessSlot_index_inversion (env : Env) (slot : Nat)
    {blk : BlockEntity} {txs : List TransactionEntity} {bs : List BlobEntity}
    (h : Call.index blk txs bs ∈ (oldProcessSlot env slot).2) :
    ∃ bb payload eb sblobs,
      env.getBlock slot = some bb ∧
      bb.message.body.execution_payload = some payload ∧
      env.getBlockWithTxs payload.block_hash = some eb ∧
      env.getBlobs slot = some sblobs ∧
      oldBlobEntities env.calcVersionedHash (txHashToVersionedHashes eb) sblobs = .ok bs := by
  unfold oldProcessSlot at h
  simp only [] at h
  repeat' split at h
  all_goals simp at h
  all_goals
    obtain ⟨rfl, rfl, rfl⟩ := h
  all_goals
    exact ⟨_, _, _, _, by assumption, by assumption, by assumption, by assumption,
      by assumption⟩

theorem processSlot_index_mem (env : Env) (lb : Option BlockData) (slot : Nat)
    (en : Option Bool) {blk : BlockEntity} {txs : List TransactionEntity}
    {bs : List BlobEntity} (h : Call.index blk txs bs ∈ (processSlot env lb slot en).2.2) :
    Call.index blk txs bs ∈ (processSlotInner env slot).2 := by
  match en with
  | none => rw [processSlot_noDetection] at h; exact h
  | some false => rw [processSlot_disabled] at h; exact h
  | some true =>
    simp only [processSlot] at h
    split at h
    case _ e lb2 t heq =>
      exfalso
      have hcalls := detectAndHandleReorg_calls env lb slot _ (by rw [heq]; exact h)
      rcases hcalls with h2 | h2 <;> exact absurd h2 (by simp)
    case _ u lb2 t heq =>
      rcases List.mem_append.mp h with hm | hm
      · exfalso
        have hcalls := detectAndHandleReorg_calls env lb slot _ (by rw [heq]; exact hm)
        rcases hcalls with h2 | h2 <;> exact absurd h2 (by simp)
      · exact hm

/-- Oracle whose execution provider finds no block, so any slot carrying
commitments fails permanently. -/
def envNotFound : Env where
  getBlock := fun s => if s = 100 then some ⟨⟨100, ⟨some ⟨170⟩, some [1]⟩, 0⟩⟩ else none
  getBlobs := fun _ => none
  getBlockHeader := fun _ => none
  getBlockWithTxs := fun _ => none
  calcVersionedHash := fun c => c
  indexOk := fun _ => true
  handleReorgedOk := fun _ => true
  updateSlotOk := fun _ => true

/-! ## Claims -/

/-- C1, amended: in the reorg-aware pipeline every emitted blob entity's
`index` is the position of its versioned hash within its own transaction's
declared versioned-hash list; in the legacy pipeline the `index` is instead
parsed from the sidecar item's own (global) index string. -/
theorem C1_blob_index (env : Env) (lb : Option BlockData) (slot : Nat)
    (en : Option Bool) :
    (∀ b ∈ indexedBlobs (processSlot env lb slot en).2.2,
      ∃ hsh eb vhs, env.getBlockWithTxs hsh = some eb ∧
        (b.tx_hash, vhs) ∈ txHashToVersionedHashes eb ∧
        vhs.get? b.index = some b.versioned_hash) ∧
    (∀ b ∈ indexedBlobs (oldProcessSlot env slot).2,
      ∃ sblobs bl, env.getBlobs slot = some sblobs ∧ bl ∈ sblobs ∧
        b.commitment = bl.kzg_commitment ∧ parseU32 bl.index = some b.index) := by
  constructor
  · intro b hb
    obtain ⟨blk, txs, bs, hcall, hbs⟩ := indexedBlobs_mem hb
    have hmem := processSlot_index_mem env lb slot en hcall
    obtain ⟨bb, payload, eb, sblobs, vhMap, _, _, hebx, _, _, _, hbuild⟩ :=
      processSlotInner_index_inversion env slot hmem
    obtain ⟨vhs, htx, hget, _⟩ := buildBlobEntities_spec vhMap _ bs hbuild b hbs
    exact ⟨payload.block_hash, eb, vhs, hebx, htx, hget⟩
  · intro b hb
    obtain ⟨blk, txs, bs, hcall, hbs⟩ := indexedBlobs_mem hb
    obtain ⟨bb, payload, eb, sblobs, _, _, _, hsb, hold⟩ :=
      oldProcessSlot_index_inversion env slot hcall
    obtain ⟨_, bl, hbl, hcom, _, hparse, _⟩ :=
      oldBlobEntities_spec env.calcVersionedHash _ sblobs bs hold b hbs
    exact ⟨sblobs, bl, hsb, hbl, hcom, hparse⟩

/-- C1 counterexample: with two blob transactions at slot 100,
the legacy pipeline emits for the second transaction's blob the entity
`{versioned_hash 2, commitment 2, index 1, tx 12}`; the declared list of its
transaction is `[2]`, in which the position of that versioned hash is `0`,
not `1` — so the blob's `index` is the global sidecar index, refuting the
claim as stated for this pipeline variant. -/
theorem C1_counterexample :
    (⟨2, 2, 501, 1, 12⟩ : BlobEntity) ∈ indexedBlobs (oldProcessSlot envTwoBlobs 100).2 ∧
    txHashToVersionedHashes ebTwoTxs = [(11, [1]), (12, [2])] ∧
    ([2] : List VH).get? 1 = none ∧
    ([2] : List VH).get? 0 = some 2 := by decide

/-- C1 witness: the amended per-transaction-position property evaluated on the
reorg-aware pipeline at the two-transaction oracle. -/
theorem C1_witness :
    ∃ hsh eb vhs, envTwoBlobs.getBlockWithTxs hsh = some eb ∧
      ((12 : H256), vhs) ∈ txHashToVersionedHashes eb ∧
      vhs.get? 0 = some 2 :=
  (C1_blob_index envTwoBlobs none 100 none).1 ⟨2, 2, 501, 0, 12⟩ (by decide)

/-- C2, amended: when the beacon block carries a non-empty commitments list
but the execution block declares no blob transactions, the reorg-aware
pipeline fails permanently with the beacon/execution mismatch error before
any sidecar fetch or downstream submission; the legacy pipeline instead skips
the slot (also without a sidecar fetch or submission). -/
theorem C2_mismatch (env : Env) (lb : Option BlockData) (slot : Nat)
    (bb : BeaconBlock) (payload : ExecutionPayload) (cs : List Commitment)
    (eb : ExecutionBlock)
    (h1 : env.getBlock slot = some bb)
    (h2 : bb.message.body.execution_payload = some payload)
    (h3 : bb.message.body.blob_kzg_commitments = some cs)
    (h4 : cs ≠ [])
    (h5 : env.getBlockWithTxs payload.block_hash = some eb)
    (h6 : txHashToVersionedHashes eb = []) :
    processSlotInner env slot =
      (.error .beaconExecutionMismatch,
        [Call.getBlock slot, Call.getBlockWithTxs payload.block_hash]) ∧
    ProcErr.permanent .beaconExecutionMismatch = true ∧
    hasGetBlobs (processSlotInner env slot).2 = false ∧
    hasIndexCall (processSlotInner env slot).2 = false ∧
    processSlot env lb slot (some false) =
      ((processSlotInner env slot).1, lb, (processSlotInner env slot).2) ∧
    (oldProcessSlot env slot).1 = .ok (.skipped .noBlobTxs) ∧
    hasGetBlobs (oldProcessSlot env slot).2 = false ∧
    hasIndexCall (oldProcessSlot env slot).2 = false := by
  have hcs : cs.isEmpty = false := by
    cases cs with
    | nil => exact absurd rfl h4
    | cons c cs2 => rfl
  have hinner : processSlotInner env slot =
      (.error .beaconExecutionMismatch,
        [Call.getBlock slot, Call.getBlockWithTxs payload.block_hash]) := by
    unfold processSlotInner
    simp only [h1, h2, h3, hcs, Bool.not_false, Bool.not_true, Bool.false_eq_true, if_false,
      h5, h6, List.isEmpty_nil, if_true]
  have hold : oldProcessSlot env slot =
      (.ok (.skipped .noBlobTxs),
        [Call.getBlock slot, Call.getBlockWithTxs payload.block_hash]) := by
    unfold oldProcessSlot
    simp only [h1, h2, h3, h5, h6, List.isEmpty_nil, if_true]
  refine ⟨hinner, rfl, ?_, ?_, processSlot_disabled env lb slot, ?_, ?_, ?_⟩
  · rw [hinner]; rfl
  · rw [hinner]; rfl
  · rw [hold]
  · rw [hold]; rfl
  · rw [hold]; rfl

/-- C2 counterexample: at slot 100 the beacon block carries one commitment
and the execution block has no blob transactions, yet the legacy
`process_slot` returns a skip outcome — not a permanent beacon/execution
mismatch failure — refuting the claim as stated for that pipeline variant. -/
theorem C2_counterexample :
    envMismatch.getBlock 100 = some ⟨⟨100, ⟨some ⟨170⟩, some [1]⟩, 0⟩⟩ ∧
    txHashToVersionedHashes ⟨some 170, some 5, 0, [⟨11, 1, some 2, []⟩]⟩ = [] ∧
    (oldProcessSlot envMismatch 100).1 = .ok (.skipped .noBlobTxs) ∧
    hasIndexCall (oldProcessSlot envMismatch 100).2 = false := by decide

/-- C2 witness: the amended statement evaluated at the mismatch oracle. -/
theorem C2_witness :
    processSlotInner envMismatch 100 =
      (.error .beaconExecutionMismatch, [Call.getBlock 100, Call.getBlockWithTxs 170]) ∧
    (oldProcessSlot envMismatch 100).1 = .ok (.skipped .noBlobTxs) := by
  have h := C2_mismatch envMismatch none 100 ⟨⟨100, ⟨some ⟨170⟩, some [1]⟩, 0⟩⟩ ⟨170⟩ [1]
    ⟨some 170, some 5, 0, [⟨11, 1, some 2, []⟩]⟩ (by decide) (by decide) (by decide)
    (by decide) (by decide) (by decide)
  exact ⟨h.1, h.2.2.2.2.2.1⟩

/-- C3, amended: with an execution payload present and the commitments field
absent or an empty list, the reorg-aware pipeline skips with the
no-blob-commitments reason after only the beacon-block fetch; the legacy
pipeline skips before the execution fetch only when the field is absent — an
empty (present) list proceeds to the execution-block fetch. -/
theorem C3_no_commitments (env : Env) (lb : Option BlockData) (slot : Nat)
    (bb : BeaconBlock) (payload : ExecutionPayload)
    (h1 : env.getBlock slot = some bb)
    (h2 : bb.message.body.execution_payload = some payload)
    (h3 : bb.message.body.blob_kzg_commitments = none ∨
          bb.message.body.blob_kzg_commitments = some []) :
    processSlotInner env slot =
      (.ok (.skipped .noBlobCommitments), [Call.getBlock slot]) ∧
    processSlot env lb slot (some false) =
      ((processSlotInner env slot).1, lb, (processSlotInner env slot).2) ∧
    (bb.message.body.blob_kzg_commitments = none →
      oldProcessSlot env slot = (.ok (.skipped .noBlobKzgCommitments), [Call.getBlock slot])) ∧
    (bb.message.body.blob_kzg_commitments = some [] →
      Call.getBlockWithTxs payload.block_hash ∈ (oldProcessSlot env slot).2) := by
  refine ⟨?_, processSlot_disabled env lb slot, ?_, ?_⟩
  · unfold processSlotInner
    rcases h3 with h3 | h3
    · simp only [h1, h2, h3, Bool.not_false, if_true]
    · simp only [h1, h2, h3, List.isEmpty_nil, Bool.not_true, Bool.not_false, if_true]
  · intro hnone
    unfold oldProcessSlot
    simp only [h1, h2, hnone]
  · intro hsome
    unfold oldProcessSlot
    simp only [h1, h2, hsome]
    repeat' split
    all_goals simp

/-- C3 counterexample: commitments present as an empty list — the legacy
pipeline performs the execution-block fetch (and reports a different skip
reason), refuting "no execution-block fetch" for that pipeline variant. -/
theorem C3_counterexample :
    envEmptyCommitments.getBlock 100 = some ⟨⟨100, ⟨some ⟨170⟩, some []⟩, 0⟩⟩ ∧
    hasGetBlockWithTxs (oldProcessSlot envEmptyCommitments 100).2 = true ∧
    (oldProcessSlot envEmptyCommitments 100).1 = .ok (.skipped .noBlobTxs) := by decide

/-- C3 witness: the amended statement evaluated at the empty-commitments
oracle. -/
theorem C3_witness :
    processSlotInner envEmptyCommitments 100 =
      (.ok (.skipped .noBlobCommitments), [Call.getBlock 100]) ∧
    Call.getBlockWithTxs 170 ∈ (oldProcessSlot envEmptyCommitments 100).2 := by
  have h := C3_no_commitments envEmptyCommitments none 100
    ⟨⟨100, ⟨some ⟨170⟩, some []⟩, 0⟩⟩ ⟨170⟩ (by decide) (by decide) (Or.inr (by decide))
  exact ⟨h.1, h.2.2.2 (by decide)⟩

/-- C4, amended: for `initial ≤ final` the reorg-aware driver iterates exactly
the slots of the closed interval, each once, in strictly increasing order,
with reorg detection enabled (equal bounds give exactly one slot); the legacy
driver instead iterates the half-open interval `[initial, final)`, so the
final slot is never processed and equal bounds process no slot at all. -/
theorem C4_forward_range (env : Env) (lb : Option BlockData) (a b : Nat) (hab : a ≤ b) :
    processSlots env lb a b = runSlots env a b true lb (List.range' a (b - a + 1)) ∧
    slotsToProcess a b = List.range' a (b - a + 1) ∧
    (∀ s, s ∈ List.range' a (b - a + 1) ↔ a ≤ s ∧ s ≤ b) ∧
    (List.range' a (b - a + 1)).Nodup ∧
    (List.range' a (b - a + 1)).Pairwise (· < ·) ∧
    (a = b → List.range' a (b - a + 1) = [a]) ∧
    (∀ s, Call.getBlock s ∈ (oldProcessSlots env a b).2 → a ≤ s ∧ s < b) := by
  have hslots : slotsToProcess a b = List.range' a (b - a + 1) := by
    unfold slotsToProcess
    rw [if_neg (by omega)]
  refine ⟨?_, hslots, ?_, List.nodup_range' a (b - a + 1), List.pairwise_lt_range' a (b - a + 1),
    ?_, ?_⟩
  · unfold processSlots
    rw [if_neg (by omega), hslots]
  · intro s
    rw [List.mem_range'_1]
    omega
  · intro hab2
    subst hab2
    rw [Nat.sub_self]
    rfl
  · intro s hs
    exact oldLoop_getBlock_bound env b (b - a) a s hs

/-- C4 counterexample: `process_slots(100, 100)` on the legacy driver
processes no slot at all — the slot processor is never invoked (no beacon
fetch for slot 100); only the final `update_slot` is issued — refuting "equal
bounds process exactly one slot" for that driver. -/
theorem C4_counterexample :
    (oldProcessSlots envHappy 100 100).2 = [Call.updateSlot 100] ∧
    Call.getBlock 100 ∉ (oldProcessSlots envHappy 100 100).2 := by decide

/-- C4 witness: the amended statement at the forward range `[100, 102]` and at
the equal bounds `100, 100`. -/
theorem C4_witness :
    processSlots envHappy none 100 102 =
      runSlots envHappy 100 102 true none (List.range' 100 3) ∧
    slotsToProcess 100 100 = [100] := by
  constructor
  · exact (C4_forward_range envHappy none 100 102 (by omega)).1
  · rw [(C4_forward_range envHappy none 100 100 (by omega)).2.1]
    decide

/-- C5, amended: when the reorg-aware driver aborts, the surfaced error is
`FailedSlotsProcessing {initial_slot, final_slot, failed_slot, cause}` where
the failed slot is one the driver attempted and the cause is the slot's own
error, but this driver makes no `update_slot` call; the legacy driver calls
`update_slot(failed_slot − 1)` as the last downstream call before surfacing,
and the surfaced error is the bare cause without the range fields. -/
theorem C5_abort_persistence (env : Env) (lb : Option BlockData) (a b : Nat) :
    (∀ err, (processSlots env lb a b).1 = .error err →
      (∃ s e lb2 fl, s ∈ slotsToProcess a b ∧
        (processSlot env lb2 s (some fl)).1 = .error e ∧
        err = .failedSlotsProcessing a b s e) ∧
      hasUpdateSlot (processSlots env lb a b).2.2 = false) ∧
    (∀ e, (oldProcessSlots env a b).1 = .error e → e ≠ .updateSlotFailed →
      ∃ s, a ≤ s ∧ s < b ∧ (oldProcessSlot env s).1 = .error e ∧
        (oldProcessSlots env a b).2.getLast? = some (Call.updateSlot (s - 1))) := by
  constructor
  · intro err herr
    refine ⟨?_, hasUpdateSlot_processSlots env lb a b⟩
    unfold processSlots at herr
    by_cases hab : a > b
    · rw [if_pos hab] at herr
      obtain ⟨s, e, lb2, hmem, hfail, hshape⟩ := runSlots_error_shape env a b false _ lb err herr
      exact ⟨s, e, lb2, false, hmem, hfail, hshape⟩
    · rw [if_neg hab] at herr
      obtain ⟨s, e, lb2, hmem, hfail, hshape⟩ := runSlots_error_shape env a b true _ lb err herr
      exact ⟨s, e, lb2, true, hmem, hfail, hshape⟩
  · intro e herr hne
    exact oldLoop_error_shape env b (b - a) a e herr hne

/-- C5 counterexample: the reorg-aware driver aborts the range `[100, 102]` at
slot 100 with the structured error, but issues no `update_slot` call at all —
refuting "update_slot(failed_slot − 1) is called before the error is
surfaced" for this driver. -/
theorem C5_counterexample :
    (processSlots envMismatch none 100 102).1 =
      .error (.failedSlotsProcessing 100 102 100 .beaconExecutionMismatch) ∧
    hasUpdateSlot (processSlots envMismatch none 100 102).2.2 = false := by decide

/-- C5 witness: the amended statement at the mismatch oracle (reorg-aware
driver) and at the not-found oracle (legacy driver, which persists
`update_slot(99)` before surfacing the bare cause). -/
theorem C5_witness :
    hasUpdateSlot (processSlots envMismatch none 100 102).2.2 = false ∧
    ∃ s, 99 ≤ s ∧ s < 103 ∧
      (oldProcessSlot envNotFound s).1 = .error (.executionBlockNotFound 170) ∧
      (oldProcessSlots envNotFound 99 103).2.getLast? = some (Call.updateSlot (s - 1)) := by
  constructor
  · exact ((C5_abort_persistence envMismatch none 100 102).1
      (.failedSlotsProcessing 100 102 100 .beaconExecutionMismatch) (by decide)).2
  · exact (C5_abort_persistence envNotFound none 99 103).2
      (.executionBlockNotFound 170) (by decide) (by decide)

/-- C6, amended: the reorg-aware driver never calls `update_slot`, succeeding
or not; the legacy driver, when a forward invocation completes successfully,
issues exactly one `update_slot(end_slot)` as its last downstream call (hence
after every `index` submission). -/
theorem C6_completion_persistence (env : Env) (lb : Option BlockData) (a b : Nat)
    (hab : a ≤ b) :
    hasUpdateSlot (processSlots env lb a b).2.2 = false ∧
    ((oldProcessSlots env a b).1 = .ok () →
      ∃ t, (oldProcessSlots env a b).2 = t ++ [Call.updateSlot b] ∧
        hasUpdateSlot t = false) := by
  refine ⟨hasUpdateSlot_processSlots env lb a b, ?_⟩
  intro hok
  exact oldLoop_ok_trace env b (b - a) a (by omega) hok

/-- C6 counterexample: a successful forward range on the reorg-aware driver
submits entities downstream but never calls `update_slot` — refuting
"update_slot(b) is called exactly once" for this driver. -/
theorem C6_counterexample :
    (processSlots envHappy none 100 100).1 = .ok () ∧
    hasIndexCall (processSlots envHappy none 100 100).2.2 = true ∧
    hasUpdateSlot (processSlots envHappy none 100 100).2.2 = false := by decide

/-- C6 witness: the amended statement at the happy-path oracle over
`[99, 103]` (legacy driver persists `update_slot(103)` last). -/
theorem C6_witness :
    hasUpdateSlot (processSlots envHappy none 100 100).2.2 = false ∧
    ∃ t, (oldProcessSlots envHappy 99 103).2 = t ++ [Call.updateSlot 103] ∧
      hasUpdateSlot t = false :=
  ⟨(C6_completion_persistence envHappy none 100 100 (by omega)).1,
   (C6_completion_persistence envHappy none 99 103 (by omega)).2 (by decide)⟩

theorem detect_absent_header (env : Env) (lb : Option BlockData) (slot : Nat)
    (hs : env.getBlockHeader slot = none) :
    detectAndHandleReorg env lb slot = (.ok (), lb, [Call.getBlockHeader slot]) := by
  unfold detectAndHandleReorg
  rw [hs]

theorem detect_no_last_block (env : Env) (slot : Nat) (hdr : BlockHeader)
    (hs : env.getBlockHeader slot = some hdr) :
    detectAndHandleReorg env none slot =
      (.ok (), some (BlockData.ofHeader hdr), [Call.getBlockHeader slot]) := by
  unfold detectAndHandleReorg
  rw [hs]

theorem detect_reorg_handled (env : Env) (slot : Nat) (hdr : BlockHeader) (blk0 : BlockData)
    (hs : env.getBlockHeader slot = some hdr)
    (hroot : hdr.header.message.parent_root ≠ blk0.root)
    (hok : env.handleReorgedOk slot = true) :
    detectAndHandleReorg env (some blk0) slot =
      (.ok (), some (BlockData.ofHeader hdr),
        [Call.getBlockHeader slot, Call.handleReorgedSlot slot]) := by
  unfold detectAndHandleReorg
  rw [hs]
  simp only [if_pos hroot, hok, if_true]

theorem detect_reorg_failed (env : Env) (slot : Nat) (hdr : BlockHeader) (blk0 : BlockData)
    (hs : env.getBlockHeader slot = some hdr)
    (hroot : hdr.header.message.parent_root ≠ blk0.root)
    (hok : env.handleReorgedOk slot = false) :
    detectAndHandleReorg env (some blk0) slot =
      (.error (.reorgHandlingFailed slot), some blk0,
        [Call.getBlockHeader slot, Call.handleReorgedSlot slot]) := by
  unfold detectAndHandleReorg
  rw [hs]
  simp only [if_pos hroot, hok, Bool.false_eq_true, if_false]

theorem detect_same_parent (env : Env) (slot : Nat) (hdr : BlockHeader) (blk0 : BlockData)
    (hs : env.getBlockHeader slot = some hdr)
    (hroot : hdr.header.message.parent_root = blk0.root) :
    detectAndHandleReorg env (some blk0) slot =
      (.ok (), some (BlockData.ofHeader hdr), [Call.getBlockHeader slot]) := by
  unfold detectAndHandleReorg
  rw [hs]
  have hn : ¬(hdr.header.message.parent_root ≠ blk0.root) := by simp [hroot]
  simp only [if_neg hn]

/-- C7: the single-step reorg check — an absent header returns success and
leaves the remembered block unchanged; with a header present,
`handle_reorged_slot(slot)` is invoked exactly when a block is remembered and
its root differs from the header's parent root (a failing handler propagates
and leaves the state unchanged), and on success the remembered block becomes
the fetched header's `(root, slot)` whether or not a reorg was detected. -/
theorem C7_reorg_check (env : Env) (lb : Option BlockData) (slot : Nat) :
    (env.getBlockHeader slot = none →
      detectAndHandleReorg env lb slot = (.ok (), lb, [Call.getBlockHeader slot])) ∧
    (∀ hdr, env.getBlockHeader slot = some hdr →
      (hasHandleReorged (detectAndHandleReorg env lb slot).2.2 = true ↔
        ∃ blk, lb = some blk ∧ hdr.header.message.parent_root ≠ blk.root) ∧
      (∀ u, (detectAndHandleReorg env lb slot).1 = .ok u →
        (detectAndHandleReorg env lb slot).2.1 = some (BlockData.ofHeader hdr)) ∧
      (∀ blk, lb = some blk → hdr.header.message.parent_root ≠ blk.root →
        env.handleReorgedOk slot = false →
          (detectAndHandleReorg env lb slot).1 = .error (.reorgHandlingFailed slot) ∧
          (detectAndHandleReorg env lb slot).2.1 = lb)) := by
  refine ⟨fun hn => detect_absent_header env lb slot hn, ?_⟩
  intro hdr hs
  cases lb with
  | none =>
    rw [detect_no_last_block env slot hdr hs]
    refine ⟨?_, fun u hu => rfl, ?_⟩
    · constructor
      · intro habs
        simp [hasHandleReorged, Call.isHandleReorged] at habs
      · rintro ⟨blk, hblk, hne⟩
        exact absurd hblk (by simp)
    · intro blk hblk
      exact absurd hblk (by simp)
  | some blk0 =>
    by_cases hroot : hdr.header.message.parent_root ≠ blk0.root
    · by_cases hok : env.handleReorgedOk slot = true
      · rw [detect_reorg_handled env slot hdr blk0 hs hroot hok]
        refine ⟨?_, fun u hu => rfl, ?_⟩
        · exact ⟨fun _ => ⟨blk0, rfl, hroot⟩, fun _ => rfl⟩
        · intro blk hblk hr hfalse
          rw [hok] at hfalse
          exact absurd hfalse (by simp)
      · have hok2 : env.handleReorgedOk slot = false := by
          cases hx : env.handleReorgedOk slot with
          | true => exact absurd hx hok
          | false => rfl
        rw [detect_reorg_failed env slot hdr blk0 hs hroot hok2]
        refine ⟨?_, ?_, ?_⟩
        · exact ⟨fun _ => ⟨blk0, rfl, hroot⟩, fun _ => rfl⟩
        · intro u hu
          exact absurd hu (by simp)
        · intro blk hblk hr hfalse
          exact ⟨rfl, rfl⟩
    · push_neg at hroot
      rw [detect_same_parent env slot hdr blk0 hs hroot]
      refine ⟨?_, fun u hu => rfl, ?_⟩
      · constructor
        · intro habs
          simp [hasHandleReorged, Call.isHandleReorged] at habs
        · rintro ⟨blk, hblk, hne⟩
          cases Option.some.inj hblk
          exact absurd hroot hne
      · intro blk hblk hr hfalse
        cases Option.some.inj hblk
        exact absurd hroot hr

/-- C7 witness: the absent-header case at slot 55 of the happy-path oracle,
with a remembered block. -/
theorem C7_witness :
    detectAndHandleReorg envHappy (some ⟨9, 54⟩) 55 =
      (.ok (), some ⟨9, 54⟩, [Call.getBlockHeader 55]) :=
  (C7_reorg_check envHappy (some ⟨9, 54⟩) 55).1 (by decide)

/-- C8: a reverse range iterates the closed interval strictly downward from
`initial` to `final`, with reorg detection disabled throughout — no beacon
header is fetched and `handle_reorged_slot` is never invoked. -/
theorem C8_reverse_range (env : Env) (lb : Option BlockData) (a b : Nat) (h : b < a) :
    processSlots env lb a b = runSlots env a b false lb ((List.range' b (a - b + 1)).reverse) ∧
    slotsToProcess a b = (List.range' b (a - b + 1)).reverse ∧
    (slotsToProcess a b).Pairwise (· > ·) ∧
    (slotsToProcess a b).head? = some a ∧
    (slotsToProcess a b).getLast? = some b ∧
    (∀ s, s ∈ slotsToProcess a b ↔ b ≤ s ∧ s ≤ a) ∧
    hasHandleReorged (processSlots env lb a b).2.2 = false ∧
    hasGetBlockHeader (processSlots env lb a b).2.2 = false := by
  have hgt : a > b := h
  have hslots : slotsToProcess a b = (List.range' b (a - b + 1)).reverse := by
    unfold slotsToProcess
    rw [if_pos hgt]
  refine ⟨?_, hslots, ?_, ?_, ?_, ?_, hasHandleReorged_processSlots_reverse env lb a b h,
    hasGetBlockHeader_processSlots_reverse env lb a b h⟩
  · unfold processSlots
    rw [if_pos hgt, hslots]
  · rw [hslots, List.pairwise_reverse]
    exact List.pairwise_lt_range' b (a - b + 1)
  · rw [hslots, List.head?_reverse, List.getLast?_range']
    rw [if_neg (by omega)]
    congr 1
    omega
  · rw [hslots, List.getLast?_reverse, List.head?_range']
    rw [if_neg (by omega)]
  · intro s
    rw [hslots, List.mem_reverse, List.mem_range'_1]
    omega

/-- C8 witness: the reverse range `200 → 198` at the happy-path oracle. -/
theorem C8_witness :
    slotsToProcess 200 198 = [200, 199, 198] ∧
    hasHandleReorged (processSlots envHappy none 200 198).2.2 = false := by
  constructor
  · rw [(C8_reverse_range envHappy none 200 198 (by omega)).2.1]
    decide
  · exact (C8_reverse_range envHappy none 200 198 (by omega)).2.2.2.2.2.2.1

/-- C9: every blob entity submitted downstream, by either pipeline variant,
carries a versioned hash equal to the versioned hash deterministically
computed from its own commitment. -/
theorem C9_versioned_hash (env : Env) (lb : Option BlockData) (slot : Nat)
    (en : Option Bool) :
    (∀ b ∈ indexedBlobs (processSlot env lb slot en).2.2,
      b.versioned_hash = env.calcVersionedHash b.commitment) ∧
    (∀ b ∈ indexedBlobs (oldProcessSlot env slot).2,
      b.versioned_hash = env.calcVersionedHash b.commitment) := by
  constructor
  · intro b hb
    obtain ⟨blk, txs, bs, hcall, hbs⟩ := indexedBlobs_mem hb
    have hmem := processSlot_index_mem env lb slot en hcall
    obtain ⟨bb, payload, eb, sblobs, vhMap, _, _, _, _, hvh, _, hbuild⟩ :=
      processSlotInner_index_inversion env slot hmem
    obtain ⟨vhs, _, _, bl, hlook, hcom, _⟩ := buildBlobEntities_spec vhMap _ bs hbuild b hbs
    have hkey := versionedHashToBlob_keys env.calcVersionedHash hvh _ (lookupA_mem hlook)
    rw [hcom]
    exact hkey
  · intro b hb
    obtain ⟨blk, txs, bs, hcall, hbs⟩ := indexedBlobs_mem hb
    obtain ⟨bb, payload, eb, sblobs, _, _, _, _, hold⟩ :=
      oldProcessSlot_index_inversion env slot hcall
    exact (oldBlobEntities_spec env.calcVersionedHash _ sblobs bs hold b hbs).1

/-- C9 witness: the emitted blob of the happy-path oracle at slot 100. -/
theorem C9_witness :
    BlobEntity.versioned_hash ⟨1, 1, 1000, 0, 11⟩ =
      envHappy.calcVersionedHash (BlobEntity.commitment ⟨1, 1, 1000, 0, 11⟩) :=
  (C9_versioned_hash envHappy none 100 none).1 ⟨1, 1, 1000, 0, 11⟩ (by decide)
